import Mathlib

/-
Verification of the relational-react store (src/src/loader.tsx, second part of
the file): the subscriber collection, the table store, the query-binding hook,
the registry and the query-builder utilities, shallowly embedded in Lean.

Modelling conventions:
  * Hooks (observers) are identified by natural numbers; JavaScript reference
    equality on hook objects becomes equality of those identifiers.
  * The JavaScript array backing `SubscriberCollection` is a `List Nat`.
    `Array.prototype.forEach` is modelled step by step (`jsForEachAux`): the
    length is captured once at the start, each index is looked up in the
    *current* array (mutations made by earlier callbacks are visible), and an
    index that no longer exists is skipped — exactly the ECMAScript semantics.
    A hook's `rerender` may mutate the collection (e.g. unsubscribe itself);
    that effect is passed in as a function from the visited hook id and the
    current array to the new array.
  * `throw` is modelled with `Except String`; the two error messages are the
    literal strings thrown by the source.
  * `symbol` table references are fresh natural numbers issued by a counter.
    The registry (a plain object keyed by symbols) is the list of currently
    registered references; the stores themselves live in a heap keyed by
    reference, which models the fact that closures (`setStateAction.bind`,
    the hooks) keep the store object alive independently of the registry.
  * JavaScript strict equality `===` on records is modelled by decidable
    equality on the record type; field access `a[k]` by a function
    `get : T → String → U`.
  * `Array.prototype.sort(comparator)` is required by ECMAScript to be stable
    and, for a consistent comparator, sorted ascending by the comparator's
    sign; `jsSort` is a stable insertion sort realising that contract.
-/

namespace RelationalReact

/-- One step of `Array.prototype.forEach`: `k` is the next index, `r` the
number of indices still to visit (the length was captured when the loop
started), `arr` the current array.  `effect s a` is what the callback on
element `s` does to the array `a` (for `SubscriberCollection.rerender` the
callback is `s => s.rerender(equalityFn)`).  Returns the list of visited
elements in order together with the final array. -/
def jsForEachAux (effect : Nat → List Nat → List Nat) :
    Nat → Nat → List Nat → List Nat × List Nat
  | _, 0, arr => ([], arr)
  | k, r + 1, arr =>
    match arr.get? k with
    | none => jsForEachAux effect (k + 1) r arr
    | some s =>
      let rest := jsForEachAux effect (k + 1) r (effect s arr)
      (s :: rest.1, rest.2)

/-- `arr.forEach(callback)` with the callback's effect on the array made
explicit. -/
def jsForEach (effect : Nat → List Nat → List Nat) (arr : List Nat) :
    List Nat × List Nat :=
  jsForEachAux effect 0 arr.length arr

/-- `SubscriberCollection.subscribe`: `this.subscriber.push(subscriber)`. -/
def SubscriberCollection.subscribe (subscriber : Nat) (arr : List Nat) :
    List Nat :=
  arr ++ [subscriber]

/-- First index of `s` in the list, the value of `indexOf` when it is not
`-1`. -/
def indexOfAux (s : Nat) : List Nat → Nat → Option Nat
  | [], _ => none
  | x :: xs, i => if x == s then some i else indexOfAux s xs (i + 1)

/-- `SubscriberCollection.unsubscribe`: `indexOf` then, when the index is not
`-1`, `splice(index, 1)`. -/
def SubscriberCollection.unsubscribe (subscriber : Nat) (arr : List Nat) :
    List Nat :=
  match indexOfAux subscriber arr 0 with
  | some index => arr.eraseIdx index
  | none => arr

/-- `SubscriberCollection.rerender`:
`this.subscriber.forEach(s => s.rerender(equalityFn))`.  The first component
lists, in order, the hooks whose `rerender` was invoked during the fan-out;
the second is the subscriber array after the fan-out. -/
def SubscriberCollection.rerender (hookEffect : Nat → List Nat → List Nat)
    (arr : List Nat) : List Nat × List Nat :=
  jsForEach hookEffect arr

/-- A hook whose `rerender` callback does not touch the subscriber
collection (the ordinary case: `triggerRerender` only schedules a React
state update). -/
def idEffect : Nat → List Nat → List Nat := fun _ arr => arr

/-- A hook population in which hook `u` calls its own `unsubscribe()` from
inside its rerender callback and every other hook leaves the collection
alone. -/
def selfUnsubEffect (u : Nat) : Nat → List Nat → List Nat :=
  fun s arr =>
    if s == u then SubscriberCollection.unsubscribe u arr else arr

/-- The element-wise loop of `Hook.arrayEquals`, run after the length check
(so the two lists are traversed in lockstep, stopping at the first index
where `equalityFn` returns `false`). -/
def arrayEqualsAux {T : Type} (eq : T → T → Bool) : List T → List T → Bool
  | [], _ => true
  | _ :: _, [] => true
  | x :: xs, y :: ys => eq x y && arrayEqualsAux eq xs ys

/-- `Hook.arrayEquals`: `false` when the lengths differ, otherwise the
element-wise comparison. -/
def arrayEquals {T : Type} (eq : T → T → Bool) (arr1 arr2 : List T) : Bool :=
  if arr1.length ≠ arr2.length then false else arrayEqualsAux eq arr1 arr2

/-- The state of one `Hook`: the bound table's current record sequence (what
`this.table.executeQuery` reads), the remembered query function, and the
remembered last result (`undefined` at construction). -/
structure HookState (T : Type) where
  tableState : List T
  queryFn : List T → List T
  oldState : Option (List T)

/-- `Hook.executeQuery`: replaces the remembered query function, runs it,
stores and returns the result. -/
def HookState.executeQuery {T : Type} (h : HookState T)
    (queryFn : List T → List T) : HookState T × List T :=
  let result := queryFn h.tableState
  ({ h with queryFn := queryFn, oldState := some result }, result)

/-- `Hook.rerender(equalityFn)`: recomputes the query, triggers the consumer
rerender callback when the old state is unset or the comparison fails, and
unconditionally replaces the old state.  The second component counts how
often `triggerRerender` was invoked during this call. -/
def HookState.rerender {T : Type} (h : HookState T)
    (equalityFn : T → T → Bool) : HookState T × Nat :=
  let newState := h.queryFn h.tableState
  let fired : Nat :=
    match h.oldState with
    | none => 1
    | some old => if arrayEquals equalityFn old newState then 0 else 1
  ({ h with oldState := some newState }, fired)

/-- A `TableStore`: its symbol (a fresh natural number), the equality policy
fixed at construction, the subscriber collection and the current state. -/
structure TableStore (T : Type) where
  reference : Nat
  equalityFn : T → T → Bool
  subscriber : List Nat
  state : List T

/-- The argument of `setStateAction`: either a replacement array or an
updater function, as in `React.SetStateAction`. -/
inductive SetStateArg (T : Type) where
  | value : List T → SetStateArg T
  | updater : (List T → List T) → SetStateArg T

/-- `typeof state === 'function' ? state(this.state) : state`. -/
def resolveSetState {T : Type} : SetStateArg T → List T → List T
  | SetStateArg.value v, _ => v
  | SetStateArg.updater f, old => f old

/-- `TableStore.setStateAction`: installs the new state, then runs the
notification fan-out `this.subscriber.rerender(this.equalityFn)`.  The second
component pairs each hook whose `rerender` was invoked with the equality
function it was passed. -/
def TableStore.setStateAction {T : Type}
    (hookEffect : Nat → List Nat → List Nat) (ts : TableStore T)
    (arg : SetStateArg T) : TableStore T × List (Nat × (T → T → Bool)) :=
  let newState := resolveSetState arg ts.state
  let fanout := SubscriberCollection.rerender hookEffect ts.subscriber
  ({ ts with state := newState, subscriber := fanout.2 },
    fanout.1.map fun s => (s, ts.equalityFn))

/-- The runtime shape of the `keyOrEqualityFn` argument of `createTable`:
absent, a field name, a two-argument function, or anything else. -/
inductive EqualityArg (T U : Type) where
  | undef : EqualityArg T U
  | key : String → EqualityArg T U
  | fn : (T → T → Bool) → EqualityArg T U
  | other : EqualityArg T U

/-- The message thrown by `createComparator` on an invalid argument. -/
def invalidEqualityArgumentMsg : String :=
  "Relational-React: Invalid argument given to createTable() function. Argument must either be undefined, a string which is a key of T or a function that accepts two arguments of type T and returns a boolean."

/-- `createComparator`: no argument gives whole-record strict equality, a
string gives strict equality of the named field, a function is used
verbatim, anything else throws. -/
def createComparator {T U : Type} [DecidableEq T] [DecidableEq U]
    (get : T → String → U) : EqualityArg T U → Except String (T → T → Bool)
  | EqualityArg.undef => Except.ok fun a b => decide (a = b)
  | EqualityArg.key k => Except.ok fun a b => decide (get a k = get b k)
  | EqualityArg.fn f => Except.ok f
  | EqualityArg.other => Except.error invalidEqualityArgumentMsg

/-- The process state: the registry (the set of references the plain-object
map currently has as keys), the heap of store objects keyed by reference
(closures keep a store alive regardless of the registry), and the counter
issuing fresh symbols. -/
structure World (T : Type) where
  registry : List Nat
  heap : List (Nat × TableStore T)
  nextRef : Nat

/-- Replace the store kept under `ref` in the heap. -/
def heapUpdate {T : Type} (ref : Nat) (ts : TableStore T) :
    List (Nat × TableStore T) → List (Nat × TableStore T)
  | [] => []
  | p :: rest =>
    if p.1 = ref then (ref, ts) :: rest else p :: heapUpdate ref ts rest

/-- Dereference a store object directly, the way the closures returned by
`createTable` and the hooks do (no registry lookup). -/
def World.lookupStore {T : Type} (w : World T) (ref : Nat) :
    Option (TableStore T) :=
  (w.heap.find? fun p => p.1 == ref).map Prod.snd

/-- `TableRegistry.get`: `this.registry[table.reference]`, which is
`undefined` once the key was deleted. -/
def World.registryGet {T : Type} (w : World T) (ref : Nat) :
    Option (TableStore T) :=
  if ref ∈ w.registry then w.lookupStore ref else none

/-- `createCreateTableFunction`'s returned closure: build the comparator
(which may throw), construct the store with a fresh symbol, register it, and
hand back the reference. -/
def World.createTable {T U : Type} [DecidableEq T] [DecidableEq U]
    (get : T → String → U) (arg : EqualityArg T U) (w : World T) :
    Except String (Nat × World T) :=
  match createComparator get arg with
  | Except.error e => Except.error e
  | Except.ok eqFn =>
    let ref := w.nextRef
    let store : TableStore T :=
      { reference := ref, equalityFn := eqFn, subscriber := [], state := [] }
    Except.ok (ref,
      { registry := w.registry ++ [ref],
        heap := w.heap ++ [(ref, store)],
        nextRef := ref + 1 })

/-- A caller observing the synchronous throw of `createTable`: when the
comparator construction throws, the world is left exactly as it was (no
store is constructed, nothing is registered). -/
def World.createTableOrKeep {T U : Type} [DecidableEq T] [DecidableEq U]
    (get : T → String → U) (arg : EqualityArg T U) (w : World T) :
    World T × Except String Nat :=
  match World.createTable get arg w with
  | Except.error e => (w, Except.error e)
  | Except.ok (ref, w2) => (w2, Except.ok ref)

/-- The cleanup closure returned by `createTable`:
`() => registry.delete(table.reference)` — it touches only the registry. -/
def World.dispose {T : Type} (w : World T) (ref : Nat) : World T :=
  { w with registry := w.registry.erase ref }

/-- A hook subscribing to the store it holds a direct reference to. -/
def World.subscribeHook {T : Type} (w : World T) (ref hookId : Nat) :
    World T :=
  match w.lookupStore ref with
  | none => w
  | some ts =>
    { w with
      heap := heapUpdate ref
        { ts with
          subscriber := SubscriberCollection.subscribe hookId ts.subscriber }
        w.heap }

/-- The `setState` closure returned by `createTable`
(`table.setStateAction.bind(table)`): it acts on the store object directly,
not through the registry.  Hooks are assumed not to mutate the collection
during this fan-out (`idEffect`). -/
def World.setState {T : Type} (w : World T) (ref : Nat) (arg : SetStateArg T) :
    World T × List (Nat × (T → T → Bool)) :=
  match w.lookupStore ref with
  | none => (w, [])
  | some ts =>
    let r := TableStore.setStateAction idEffect ts arg
    ({ w with heap := heapUpdate ref r.1 w.heap }, r.2)

/-- The message thrown by the defensive final branch of
`combinePredicates`. -/
def internalInvariantMsg : String :=
  "Relation-React: Bug (1). Combining of two optional predicates failed."

/-- `combinePredicates`, with the source's branch chain kept intact: both
absent, both present, only the first, only the second, and the defensive
final `throw` that is reached only when every earlier test failed. -/
def combinePredicates {T : Type} (p1 p2 : Option (T → Bool)) :
    Except String (Option (T → Bool)) :=
  if p1.isNone && p2.isNone then
    Except.ok none
  else
    match p1, p2 with
    | some f1, some f2 =>
      Except.ok (some fun value => f1 value && f2 value)
    | some f1, none => Except.ok (some f1)
    | none, some f2 => Except.ok (some f2)
    | none, none => Except.error internalInvariantMsg

/-- The runtime evaluation of `p1(value) && p2(value)`: JavaScript `&&`
short-circuits, so the second component records how many times `p2` was
invoked. -/
def combineCallCount {T : Type} (f1 f2 : T → Bool) (value : T) : Bool × Nat :=
  if f1 value then (f2 value, 1) else (false, 0)

/-- Stable insertion of `x` (the earlier element) into an already sorted
list: `x` goes before the first element it does not compare greater than, so
elements the comparator ties keep their original order. -/
def sortedInsert {T : Type} (ord : T → T → Int) (x : T) : List T → List T
  | [] => [x]
  | y :: ys => if ord x y ≤ 0 then x :: y :: ys else y :: sortedInsert ord x ys

/-- `Array.prototype.sort(comparator)`: stable, ascending by the
comparator's sign. -/
def jsSort {T : Type} (ord : T → T → Int) : List T → List T
  | [] => []
  | x :: xs => sortedInsert ord x (jsSort ord xs)

/-- `Array.prototype.slice(start, stop)` for in-range indices. -/
def jsSlice {T : Type} (arr : List T) (start stop : Nat) : List T :=
  (arr.take stop).drop start

/-- The filter-then-sort first half of the query function built by
`createDefaultQueryFunction` (the two branches of its `where` test). -/
def buildQueryBase {T : Type} (whereFn : Option (T → Bool))
    (ord : Option (T → T → Int)) (state : List T) : List T :=
  match whereFn with
  | none =>
    match ord with
    | none => state
    | some o => jsSort o state
  | some p =>
    let s := state.filter p
    match ord with
    | none => s
    | some o => jsSort o s

/-- `createDefaultQueryFunction`: filter, sort, then
`off > 0 || lim < state.length ? state.slice(off, off + lim) : state` with
`off = offset ?? 0` and `lim = limit ?? state.length`. -/
def createDefaultQueryFunction {T : Type} (whereFn : Option (T → Bool))
    (ord : Option (T → T → Int)) (offset limit : Option Nat) :
    List T → List T :=
  fun state =>
    let state1 := buildQueryBase whereFn ord state
    let off := offset.getD 0
    let lim := limit.getD state1.length
    if off > 0 ∨ lim < state1.length then jsSlice state1 off (off + lim)
    else state1

/-- The query pipeline exactly as the spec words it, for comparison with the
source's `createDefaultQueryFunction`: filter (or the full sequence), stable
sort, then a slice whose offset defaults to 0 and whose limit defaults to
the remaining length after the offset. -/
def buildQuerySpec {T : Type} (whereFn : Option (T → Bool))
    (ord : Option (T → T → Int)) (offset limit : Option Nat) :
    List T → List T :=
  fun state =>
    let base := buildQueryBase whereFn ord state
    let off := offset.getD 0
    let lim := limit.getD (base.length - off)
    (base.drop off).take lim

/-- The record type of the spec's worked query-builder example. -/
structure Item where
  n : Int
  active : Bool
deriving DecidableEq

/-- `arrayEqualsAux` succeeds exactly when every common position compares
equal under `eq`. -/
theorem arrayEqualsAux_eq_true_iff {T : Type} (eq : T → T → Bool)
    (a b : List T) :
    arrayEqualsAux eq a b = true ↔
      ∀ (i : Nat) (h1 : i < a.length) (h2 : i < b.length),
        eq (a.get ⟨i, h1⟩) (b.get ⟨i, h2⟩) = true := by
  induction a generalizing b with
  | nil =>
    simp only [arrayEqualsAux, List.length_nil, true_iff]
    intro i h1 _
    exact absurd h1 (Nat.not_lt_zero i)
  | cons x xs ih =>
    cases b with
    | nil =>
      simp only [arrayEqualsAux, List.length_nil, true_iff]
      intro i _ h2
      exact absurd h2 (Nat.not_lt_zero i)
    | cons y ys =>
      simp only [arrayEqualsAux, Bool.and_eq_true, ih]
      constructor
      · rintro ⟨hxy, hrest⟩ i h1 h2
        cases i with
        | zero => exact hxy
        | succ j =>
          exact hrest j (Nat.lt_of_succ_lt_succ h1) (Nat.lt_of_succ_lt_succ h2)
      · intro hall
        refine ⟨hall 0 (Nat.succ_pos _) (Nat.succ_pos _), fun j hj1 hj2 => ?_⟩
        exact hall (j + 1) (Nat.succ_lt_succ hj1) (Nat.succ_lt_succ hj2)

/-- `Hook.arrayEquals` succeeds exactly when the lengths agree and every
position compares equal under `eq`. -/
theorem arrayEquals_eq_true_iff {T : Type} (eq : T → T → Bool)
    (a b : List T) :
    arrayEquals eq a b = true ↔
      a.length = b.length ∧
        ∀ (i : Nat) (h1 : i < a.length) (h2 : i < b.length),
          eq (a.get ⟨i, h1⟩) (b.get ⟨i, h2⟩) = true := by
  unfold arrayEquals
  by_cases h : a.length = b.length
  · rw [if_neg (by simp [h]), arrayEqualsAux_eq_true_iff]
    exact ⟨fun hp => ⟨h, hp⟩, fun hp => hp.2⟩
  · rw [if_pos h]
    simp [h]

/-- A reflexive equality policy accepts a list against itself. -/
theorem arrayEquals_self {T : Type} (eq : T → T → Bool) (a : List T)
    (h : ∀ x, eq x x = true) : arrayEquals eq a a = true := by
  rw [arrayEquals_eq_true_iff]
  exact ⟨rfl, fun i h1 _ => h _⟩

/-- `forEach` over callbacks that leave the array alone visits the segment
of the array its counters describe and does not change the array. -/
theorem jsForEachAux_idEffect (r k : Nat) (arr : List Nat) :
    jsForEachAux idEffect k r arr = ((arr.drop k).take r, arr) := by
  induction r generalizing k with
  | zero => simp [jsForEachAux]
  | succ r ih =>
    cases hg : arr.get? k with
    | none =>
      have hlen : arr.length ≤ k := List.get?_eq_none.mp hg
      simp only [jsForEachAux, hg, ih]
      rw [List.drop_eq_nil_of_le hlen,
        List.drop_eq_nil_of_le (Nat.le_succ_of_le hlen)]
      simp
    | some s =>
      obtain ⟨hk, hget⟩ := List.get?_eq_some.mp hg
      have hdrop : arr.drop k = s :: arr.drop (k + 1) := by
        rw [List.drop_eq_getElem_cons hk]
        rw [← hget]
        rfl
      simp only [jsForEachAux, hg, idEffect, ih, hdrop, List.take_succ_cons]

/-- `forEach` over callbacks that leave the array alone visits every element
exactly once, in order. -/
theorem jsForEach_idEffect (arr : List Nat) :
    jsForEach idEffect arr = (arr, arr) := by
  unfold jsForEach
  rw [jsForEachAux_idEffect]
  simp

/-- `indexOf` of an element that is not in the array finds nothing. -/
theorem indexOfAux_eq_none {s : Nat} (arr : List Nat) (h : s ∉ arr) :
    ∀ i : Nat, indexOfAux s arr i = none := by
  induction arr with
  | nil => intro i; rfl
  | cons x xs ih =>
    intro i
    have hx : (x == s) = false := by
      simp only [beq_eq_false_iff_ne]
      intro hxs
      exact h (hxs ▸ List.mem_cons_self x xs)
    simp [indexOfAux, hx, ih (fun hm => h (List.mem_cons_of_mem x hm))]

/-- `unsubscribe` of a hook that is not subscribed leaves the collection
unchanged. -/
theorem unsubscribe_not_mem {s : Nat} {arr : List Nat} (h : s ∉ arr) :
    SubscriberCollection.unsubscribe s arr = arr := by
  unfold SubscriberCollection.unsubscribe
  rw [indexOfAux_eq_none arr h 0]

/-- Updating the heap entry of a reference the heap already holds makes
lookups of that reference see the new store. -/
theorem heapUpdate_find {T : Type} (ref : Nat) (ts2 : TableStore T)
    (hp : List (Nat × TableStore T)) (q : Nat × TableStore T)
    (h : hp.find? (fun p => p.1 == ref) = some q) :
    (heapUpdate ref ts2 hp).find? (fun p => p.1 == ref) = some (ref, ts2) := by
  induction hp with
  | nil => simp [List.find?] at h
  | cons p rest ih =>
    by_cases hpr : p.1 = ref
    · simp only [heapUpdate, if_pos hpr]
      exact List.find?_cons_of_pos _ (by simp)
    · have hneg : ¬((p.1 == ref) = true) := by simp [hpr]
      rw [@List.find?_cons_of_neg _ (fun q => q.1 == ref) p rest hneg] at h
      have hstep : heapUpdate ref ts2 (p :: rest) = p :: heapUpdate ref ts2 rest := by
        simp [heapUpdate, hpr]
      rw [hstep, @List.find?_cons_of_neg _ (fun q => q.1 == ref) p
        (heapUpdate ref ts2 rest) hneg]
      exact ih h

/-- C1: the spec requires that an Observer calling its own `unsubscribe` from
inside its rerender callback leaves every other Observer subscribed at the
start of the fan-out visited exactly once.  The code violates this:
`rerender` iterates with `forEach` while `unsubscribe` splices the array in
place, so when hook 0 of the collection `[0, 1]` removes itself during its
callback, hook 1 shifts into the already-visited index and the fan-out ends
having visited only hook 0 — hook 1, subscribed when the fan-out started
(and still subscribed after it), is visited zero times.  The fan-out itself
terminates normally, so only the no-skipping half of the claim fails. -/
theorem reentrantUnsubscribeSkipsNextObserver :
    (SubscriberCollection.rerender (selfUnsubEffect 0) [0, 1]).1 = [0] ∧
    List.count 1 (SubscriberCollection.rerender (selfUnsubEffect 0) [0, 1]).1 = 0 ∧
    (SubscriberCollection.rerender (selfUnsubEffect 0) [0, 1]).2 = [1] := by
  refine ⟨by decide, by decide, by decide⟩

/-- C6 counterexample: the subscriber collection is an array kept with
`push`, not a set — subscribing the already-subscribed hook 0 to the
collection `[0]` appends a second entry instead of leaving the membership
unchanged, and one mutation fan-out then visits hook 0 twice. -/
theorem subscribeDuplicateCounterexample :
    SubscriberCollection.subscribe 0 [0] = [0, 0] ∧
    ((SubscriberCollection.subscribe 0 [0] = [0]) = False) ∧
    List.count 0 (SubscriberCollection.rerender idEffect
      (SubscriberCollection.subscribe 0 [0])).1 = 2 := by
  refine ⟨by decide, eq_false (by decide), by decide⟩

/-- C6 amended: `subscribe` unconditionally appends the Observer to the
collection (so a duplicate subscription adds a second entry and the Observer
is then visited once per entry during a fan-out in which no callback mutates
the collection), and `unsubscribe` of a non-member is a no-op that leaves
the collection unchanged. -/
theorem subscribeAppendsUnsubscribeNonMemberNoop (s : Nat) (arr : List Nat) :
    SubscriberCollection.subscribe s arr = arr ++ [s] ∧
    (s ∉ arr → SubscriberCollection.unsubscribe s arr = arr) ∧
    (SubscriberCollection.rerender idEffect arr).1 = arr := by
  refine ⟨rfl, fun h => unsubscribe_not_mem h, ?_⟩
  show (jsForEach idEffect arr).1 = arr
  rw [jsForEach_idEffect]

/-- C7: `combinePredicates` returns nothing when both predicates are absent,
returns the given predicate itself when exactly one is present, and when
both are present returns the conjunction `value => p1(value) && p2(value)`,
which evaluates `p1` first and, `&&` being short-circuiting, never invokes
`p2` on a value `p1` rejects. -/
theorem combinePredicatesBehaviour {T : Type} (f1 f2 : T → Bool) :
    @combinePredicates T none none = Except.ok none ∧
    combinePredicates (some f1) none = Except.ok (some f1) ∧
    combinePredicates none (some f2) = Except.ok (some f2) ∧
    (∃ g, combinePredicates (some f1) (some f2) = Except.ok (some g) ∧
      ∀ x, g x = (f1 x && f2 x) ∧ g x = (combineCallCount f1 f2 x).1) ∧
    (∀ x, f1 x = false → (combineCallCount f1 f2 x).2 = 0) := by
  refine ⟨rfl, rfl, rfl,
    ⟨fun value => f1 value && f2 value, rfl, fun x => ⟨rfl, ?_⟩⟩,
    fun x hx => ?_⟩
  · unfold combineCallCount
    cases h : f1 x <;> simp [h, Bool.and]
  · unfold combineCallCount
    simp [hx]

/-- C9: for every pair of optional predicate arguments the defensive final
branch of `combinePredicates` is unreachable — the result is always `ok`,
never the `InternalInvariantViolation` error. -/
theorem combinePredicatesNeverThrows (T : Type) (p1 p2 : Option (T → Bool)) :
    ∃ r, combinePredicates p1 p2 = Except.ok r := by
  cases p1 <;> cases p2 <;> exact ⟨_, rfl⟩

/-- The slicing tail of the built query function equals a drop followed by a
take whose limit defaults to the remaining length after the offset. -/
theorem slice_eq_drop_take {T : Type} (b : List T) (off : Nat)
    (limit : Option Nat) :
    (if off > 0 ∨ limit.getD b.length < b.length then
        jsSlice b off (off + limit.getD b.length)
      else b) =
      (b.drop off).take (limit.getD (b.length - off)) := by
  cases limit with
  | some l =>
    simp only [Option.getD_some]
    have hslice : jsSlice b off (off + l) = (b.drop off).take l := by
      unfold jsSlice
      rw [List.drop_take]
      congr 1
      omega
    by_cases hc : off > 0 ∨ l < b.length
    · rw [if_pos hc, hslice]
    · rw [if_neg hc]
      push_neg at hc
      have hoff : off = 0 := by omega
      rw [hoff, List.drop_zero, List.take_of_length_le hc.2]
  | none =>
    simp only [Option.getD_none]
    by_cases hoff : off > 0
    · rw [if_pos (Or.inl hoff)]
      unfold jsSlice
      rw [List.drop_take]
      have h1 : off + b.length - off = b.length := by omega
      rw [h1, List.take_of_length_le (by rw [List.length_drop]; omega),
        List.take_of_length_le (by rw [List.length_drop])]
    · have hoff0 : off = 0 := by omega
      rw [if_neg (by omega), hoff0, List.drop_zero, Nat.sub_zero,
        List.take_length]

/-- C4: the query function built by `createDefaultQueryFunction` equals,
pointwise, the pipeline the spec words describe (filter preserving order,
stable sort ascending by the comparator's sign, then a slice whose offset
defaults to 0 and whose limit defaults to the remaining length after the
offset); on the spec's worked example it yields the records with n = 2 and
n = 3; and with offset 0 and a limit at least the post-filter/sort length
the post-filter/sort sequence itself is returned (the source's
reference-preserving else branch). -/
theorem defaultQueryFunctionMatchesSpec :
    (∀ (T : Type) (whereFn : Option (T → Bool)) (ord : Option (T → T → Int))
        (offset limit : Option Nat) (state : List T),
      createDefaultQueryFunction whereFn ord offset limit state =
        buildQuerySpec whereFn ord offset limit state) ∧
    @createDefaultQueryFunction Item (some fun v => v.active)
        (some fun a b => a.n - b.n) (some 1) (some 2)
        [⟨3, true⟩, ⟨1, true⟩, ⟨5, false⟩, ⟨2, true⟩] =
      [⟨2, true⟩, ⟨3, true⟩] ∧
    (∀ (T : Type) (whereFn : Option (T → Bool)) (ord : Option (T → T → Int))
        (L : Nat) (state : List T),
      (buildQueryBase whereFn ord state).length ≤ L →
        createDefaultQueryFunction whereFn ord (some 0) (some L) state =
          buildQueryBase whereFn ord state) := by
  refine ⟨?_, by decide, ?_⟩
  · intro T whereFn ord offset limit state
    exact slice_eq_drop_take (buildQueryBase whereFn ord state)
      (offset.getD 0) limit
  · intro T whereFn ord L state hL
    show (if 0 > 0 ∨ (some L).getD _ < (buildQueryBase whereFn ord state).length
        then _ else buildQueryBase whereFn ord state) = _
    rw [if_neg]
    simp only [Option.getD_some]
    omega

/-- C5: equality-policy construction at `createTable` obeys the priority
rules: no argument gives whole-record strict equality, a field name compares
the named field's values strictly, a two-argument boolean function is used
verbatim, and any other argument shape makes `createComparator` throw the
`InvalidEqualityArgument` error synchronously, so `createTable` propagates
it and the world is left unchanged — no table is constructed or
registered. -/
theorem createComparatorPolicyRules {T U : Type} [DecidableEq T]
    [DecidableEq U] (get : T → String → U) (k : String) (f : T → T → Bool)
    (w : World T) :
    (∃ cmp, createComparator get (@EqualityArg.undef T U) = Except.ok cmp ∧
      ∀ a b : T, cmp a b = true ↔ a = b) ∧
    (∃ cmp, createComparator get (@EqualityArg.key T U k) = Except.ok cmp ∧
      ∀ a b : T, cmp a b = true ↔ get a k = get b k) ∧
    createComparator get (EqualityArg.fn f) = Except.ok f ∧
    createComparator get (@EqualityArg.other T U) =
      Except.error invalidEqualityArgumentMsg ∧
    World.createTableOrKeep get (@EqualityArg.other T U) w =
      (w, Except.error invalidEqualityArgumentMsg) := by
  refine ⟨⟨_, rfl, fun a b => decide_eq_true_iff⟩,
    ⟨_, rfl, fun a b => decide_eq_true_iff⟩, rfl, rfl, rfl⟩

/-- C8: `setStateAction` installs the resolved sequence — the replacement
array, or the updater applied to the old state — as current state and then
invokes the rerender procedure of every subscribed Observer exactly once
each, in order, passing the store's fixed equality policy; the notification
also happens when the new sequence is the old sequence itself, and the
equality policy is never changed. -/
theorem setStateInstallsAndNotifiesAll {T : Type} (ts : TableStore T)
    (v : List T) (f : List T → List T) (arg : SetStateArg T) :
    (TableStore.setStateAction idEffect ts (SetStateArg.value v)).1.state =
      v ∧
    (TableStore.setStateAction idEffect ts (SetStateArg.updater f)).1.state =
      f ts.state ∧
    (TableStore.setStateAction idEffect ts arg).2 =
      ts.subscriber.map (fun s => (s, ts.equalityFn)) ∧
    (TableStore.setStateAction idEffect ts (SetStateArg.value ts.state)).2 =
      ts.subscriber.map (fun s => (s, ts.equalityFn)) ∧
    (TableStore.setStateAction idEffect ts arg).1.equalityFn =
      ts.equalityFn := by
  have hfan : SubscriberCollection.rerender idEffect ts.subscriber =
      (ts.subscriber, ts.subscriber) := jsForEach_idEffect ts.subscriber
  refine ⟨rfl, rfl, ?_, ?_, rfl⟩ <;>
    simp [TableStore.setStateAction, hfan]

/-- A boolean that is not `true` is `false`. -/
theorem bool_eq_false {b : Bool} (h : ¬b = true) : b = false := by
  cases b
  · rfl
  · exact absurd rfl h

/-- C2: one notification (`Hook.rerender` with equality function `eq`)
invokes the consumer rerender callback exactly once when the remembered
last result is unset, when the new result's length differs from the last
result's, or when some position holds elements `eq` rejects; and when a
last result exists, the lengths agree and every position compares equal
under `eq`, the callback is not invoked at all. -/
theorem hookRerenderFiresExactlyOnChange {T : Type} (h : HookState T)
    (eq : T → T → Bool) :
    ((HookState.rerender h eq).2 = 1 ↔
      (h.oldState = none ∨ ∃ old, h.oldState = some old ∧
        (old.length ≠ (h.queryFn h.tableState).length ∨
          ∃ (i : Nat) (h1 : i < old.length)
            (h2 : i < (h.queryFn h.tableState).length),
            eq (old.get ⟨i, h1⟩)
              ((h.queryFn h.tableState).get ⟨i, h2⟩) = false))) ∧
    ((HookState.rerender h eq).2 = 0 ↔
      ∃ old, h.oldState = some old ∧
        old.length = (h.queryFn h.tableState).length ∧
        ∀ (i : Nat) (h1 : i < old.length)
          (h2 : i < (h.queryFn h.tableState).length),
          eq (old.get ⟨i, h1⟩)
            ((h.queryFn h.tableState).get ⟨i, h2⟩) = true) := by
  cases hOld : h.oldState with
  | none =>
    constructor
    · simp [HookState.rerender, hOld]
    · simp [HookState.rerender, hOld]
  | some old =>
    have hre : (HookState.rerender h eq).2 =
        if arrayEquals eq old (h.queryFn h.tableState) = true then 0 else 1 := by
      simp [HookState.rerender, hOld]
    by_cases heq : arrayEquals eq old (h.queryFn h.tableState) = true
    · have hun := (arrayEquals_eq_true_iff eq old (h.queryFn h.tableState)).mp heq
      rw [hre, if_pos heq]
      constructor
      · constructor
        · intro hz
          exact absurd hz (by omega)
        · rintro (habs | ⟨old2, hsome, hbad⟩)
          · exact absurd habs (by simp)
          · obtain rfl : old2 = old := by injection hsome with hh; exact hh.symm
            rcases hbad with hlen | ⟨i, h1, h2, hfalse⟩
            · exact absurd hun.1 hlen
            · rw [hun.2 i h1 h2] at hfalse
              exact absurd hfalse (by simp)
      · constructor
        · intro _
          exact ⟨old, rfl, hun.1, hun.2⟩
        · intro _
          rfl
    · have hf : arrayEquals eq old (h.queryFn h.tableState) = false :=
        bool_eq_false heq
      have hnot := fun hc =>
        heq ((arrayEquals_eq_true_iff eq old (h.queryFn h.tableState)).mpr hc)
      rw [hre, if_neg heq]
      constructor
      · constructor
        · intro _
          by_cases hlen : old.length = (h.queryFn h.tableState).length
          · have hne : ¬∀ (i : Nat) (h1 : i < old.length)
                (h2 : i < (h.queryFn h.tableState).length),
                eq (old.get ⟨i, h1⟩)
                  ((h.queryFn h.tableState).get ⟨i, h2⟩) = true := by
              intro hall
              exact hnot ⟨hlen, hall⟩
            push_neg at hne
            obtain ⟨i, h1, h2, hfalse⟩ := hne
            exact Or.inr ⟨old, rfl, Or.inr ⟨i, h1, h2, bool_eq_false hfalse⟩⟩
          · exact Or.inr ⟨old, rfl, Or.inl hlen⟩
        · intro _
          rfl
      · constructor
        · intro habs
          exact absurd habs (by omega)
        · rintro ⟨old2, hsome, hlen, hall⟩
          obtain rfl : old2 = old := by injection hsome with hh; exact hh.symm
          exact (hnot ⟨hlen, hall⟩).elim

/-- C3: `Hook.rerender` unconditionally replaces the remembered last result
with the newly computed one, whatever the comparison reported; hence for
every table state, every query function (pure by construction in this
embedding) and every reflexive equality policy, the second of two
consecutive notifications with no intervening mutation never triggers the
consumer rerender callback. -/
theorem hookRerenderAlwaysReplacesLastResult {T : Type} (h : HookState T)
    (eq : T → T → Bool) (hrefl : ∀ x, eq x x = true) :
    (∀ eqAny : T → T → Bool,
      (HookState.rerender h eqAny).1.oldState =
        some (h.queryFn h.tableState)) ∧
    (HookState.rerender (HookState.rerender h eq).1 eq).2 = 0 := by
  refine ⟨fun eqAny => rfl, ?_⟩
  show (HookState.rerender
      { h with oldState := some (h.queryFn h.tableState) } eq).2 = 0
  simp [HookState.rerender, arrayEquals_self eq (h.queryFn h.tableState) hrefl]

/-- C3 witness: a concrete hook over the table state `[1, 2]` with the
identity query and boolean equality of naturals — its second consecutive
notification does not fire, and its last result is always replaced. -/
theorem hookRerenderAlwaysReplacesLastResultWitness :
    (∀ eqAny : Nat → Nat → Bool,
      (HookState.rerender ⟨[1, 2], fun l => l, none⟩ eqAny).1.oldState =
        some [1, 2]) ∧
    (HookState.rerender
      (HookState.rerender ⟨[1, 2], fun l => l, none⟩ (fun a b => a == b)).1
      (fun a b => a == b)).2 = 0 :=
  hookRerenderAlwaysReplacesLastResult ⟨[1, 2], fun l => l, none⟩
    (fun a b => a == b) (fun x => by simp)

/-- C10: the cleanup function returned by `createTable` only removes the
registry entry.  The heap — every store's current state and subscriber
collection — is untouched, the handle stops resolving through the registry
(when it was registered at most once, as `createTable`'s fresh symbols
guarantee), direct store dereferencing is unaffected, and the `setState`
closure from the same `createTable` call — which holds the store directly,
not via a per-call registry lookup — still installs the new state and still
notifies every Observer that remains subscribed, passing the store's fixed
equality policy. -/
theorem disposeOnlyUnregisters {T : Type} (w : World T) (ref : Nat) :
    (World.dispose w ref).heap = w.heap ∧
    (List.count ref w.registry ≤ 1 →
      ref ∉ (World.dispose w ref).registry ∧
      World.registryGet (World.dispose w ref) ref = none) ∧
    World.lookupStore (World.dispose w ref) ref = World.lookupStore w ref ∧
    (∀ (ts : TableStore T) (arg : SetStateArg T),
      World.lookupStore w ref = some ts →
      (World.setState (World.dispose w ref) ref arg).2 =
        ts.subscriber.map (fun s => (s, ts.equalityFn)) ∧
      (World.setState (World.dispose w ref) ref arg).1.lookupStore ref =
        some { ts with state := resolveSetState arg ts.state }) := by
  refine ⟨rfl, ?_, rfl, ?_⟩
  · intro hcount
    have hmem : ref ∉ (World.dispose w ref).registry := by
      show ref ∉ w.registry.erase ref
      rw [← List.count_eq_zero]
      have := List.count_erase_self ref w.registry
      omega
    refine ⟨hmem, ?_⟩
    unfold World.registryGet
    rw [if_neg hmem]
  · intro ts arg hts
    have hfind : ∃ q, w.heap.find? (fun p => p.1 == ref) = some q ∧
        q.2 = ts := by
      unfold World.lookupStore at hts
      cases hq : w.heap.find? (fun p => p.1 == ref) with
      | none =>
        rw [hq] at hts
        simp at hts
      | some q =>
        rw [hq] at hts
        simp at hts
        exact ⟨q, rfl, hts⟩
    obtain ⟨q, hq, hq2⟩ := hfind
    have hsetAct : TableStore.setStateAction idEffect ts arg =
        ({ ts with state := resolveSetState arg ts.state },
          ts.subscriber.map fun s => (s, ts.equalityFn)) := by
      unfold TableStore.setStateAction SubscriberCollection.rerender
      rw [jsForEach_idEffect]
    have hlookup : World.lookupStore (World.dispose w ref) ref = some ts :=
      hts
    have hset : World.setState (World.dispose w ref) ref arg =
        ({ World.dispose w ref with
            heap := heapUpdate ref
              { ts with state := resolveSetState arg ts.state } w.heap },
          ts.subscriber.map fun s => (s, ts.equalityFn)) := by
      unfold World.setState
      rw [hlookup]
      simp only [hsetAct]
      rfl
    rw [hset]
    refine ⟨rfl, ?_⟩
    unfold World.lookupStore
    rw [heapUpdate_find ref _ w.heap q hq]
    rfl

end RelationalReact
